import Mathlib

/-
Verification of the response-normalization layer of `ads_mcp/utils.py`:
the value normalizer `format_output_value`, the repeated-container
classifier `_is_repeated_container`, the nested field resolver
`_get_attr_with_reserved_fallback` / `get_nested_attr_safe`, and the row
formatter `format_output_row`.

The Python value universe is shallowly embedded as the inductive type
`PyValue`, whose constructors are the shape categories the source code
itself distinguishes (None, scalars, byte strings, proto-plus enum
members, AdTextAsset wrappers, mappings, repeated containers of the three
kinds the classifier probes for, proto-plus messages, and raw protobuf
messages).  Exceptions are embedded with `Except PyErr`.
-/

set_option autoImplicit false

namespace AdsMcp

/-- Python exceptions that the embedded code can raise: `AttributeError`
(carrying the attribute name, as in `raise AttributeError(name)`), and a
generic non-attribute exception such as a `RuntimeError` escaping from a
property getter or from a container method. -/
inductive PyErr where
  | attributeError (name : String)
  | runtimeError (msg : String)
  deriving DecidableEq, Repr

/-- The JSON model, used for the output of the protobuf library's
`MessageToDict` conversion (a library call, not repository code): its
result is a plain dict built from null, booleans, numbers, strings,
lists and string-keyed dicts. -/
inductive Json where
  | null
  | boolJ (b : Bool)
  | numJ (n : Int)
  | strJ (s : String)
  | arrJ (xs : List Json)
  | objJ (fields : List (String × Json))

/-- The universe of Python values the normalization layer operates on,
one constructor per shape the source code distinguishes:

* `none`, `boolV`, `intV`, `strV`, `bytesV` — `None` and the basic
  scalars; `bytesV` covers `bytes`/`bytearray`, which the classifier at
  utils.py:112 names explicitly.
* `enumV name number` — a `proto.Enum` member with its symbolic name and
  numeric value.
* `adTextAsset text` — an `AdTextAsset` wrapper exposing a `text` field.
* `mapping items` — a `collections.abc.Mapping` with its `items()`
  association list (keys may be arbitrary values).
* `mappingRaising s` — a `Mapping` whose `items()` iteration raises
  (e.g. a lazily backed view); `s` is its `str()` form.  It exercises
  the `except` fallback of `format_output_value` (utils.py:247).
* `upbRepeated xs` — a C++ upb container, type module
  `google._upb._message`, type name starting with `Repeated`.
* `pyList xs` — a plain iterable sequence (e.g. `list`).
* `seqLike xs` — a sequence exposing `__len__`/`__getitem__` but no
  `__iter__` (the classifier's final probe, utils.py:137).
* `protoMsg pb attrs callables raisingAttrs` — a proto-plus
  `proto.Message`: `pb = some fields` models `_pb.ListFields()` being
  available with `fields` the populated (name, value) pairs; `pb = none`
  models the `_pb`-unavailable case handled by the `dir()` scan.
  `attrs` are the gettable attributes, `callables` the names among them
  that are callable, `raisingAttrs` names whose property getter raises.
* `pbMsg fields` — a raw protobuf message (not proto-plus), carrying the
  field structure that `MessageToDict` would produce. -/
inductive PyValue where
  | none
  | boolV (b : Bool)
  | intV (n : Int)
  | strV (s : String)
  | bytesV (bs : List Nat)
  | enumV (name : String) (number : Int)
  | adTextAsset (text : String)
  | mapping (items : List (PyValue × PyValue))
  | mappingRaising (s : String)
  | upbRepeated (xs : List PyValue)
  | pyList (xs : List PyValue)
  | seqLike (xs : List PyValue)
  | protoMsg (pb : Option (List (String × PyValue))) (attrs : List (String × PyValue))
      (callables : List String) (raisingAttrs : List String)
  | pbMsg (fields : List (String × Json))

/-- Python `s.startswith(pre)`. -/
def strStartsWith (s pre : String) : Bool :=
  pre.data.isPrefixOf s.data

/-- Python `s.endswith("_")`. -/
def endsUnderscore (s : String) : Bool :=
  match s.data.getLast? with
  | some c => c == '_'
  | Option.none => false

/-- Python `s[:-1]`: the string with its final character removed. -/
def dropLastChar (s : String) : String :=
  String.mk s.data.dropLast

/-- Helper for `splitDots`: accumulate the current segment (reversed)
while scanning the remaining characters. -/
def splitDotsAux : List Char → List Char → List String
  | acc, [] => [String.mk acc.reverse]
  | acc, c :: cs =>
      if c == '.' then String.mk acc.reverse :: splitDotsAux [] cs
      else splitDotsAux (c :: acc) cs

/-- Python `path.split(".")`: split on every dot, keeping empty
segments (so the empty string yields one empty segment). -/
def splitDots (s : String) : List String :=
  splitDotsAux [] s.data

/-- Test `value is None`. -/
def pyIsNone : PyValue → Bool
  | .none => true
  | _ => false

/-- Test `isinstance(value, (str, bytes, bytearray))`. -/
def pyIsStrOrBytes : PyValue → Bool
  | .strV _ => true
  | .bytesV _ => true
  | _ => false

/-- Test `isinstance(value, Mapping)`. -/
def pyIsMapping : PyValue → Bool
  | .mapping _ => true
  | .mappingRaising _ => true
  | _ => false

/-- Test `isinstance(value, proto.Message)`.  `AdTextAsset` is itself a
proto-plus message type, so it satisfies this test; raw protobuf messages
and proto-plus enum members do not. -/
def pyIsProtoMessage : PyValue → Bool
  | .protoMsg _ _ _ _ => true
  | .adTextAsset _ => true
  | _ => false

/-- The value of `type(value).__module__`. -/
def pyTypeModule : PyValue → String
  | .upbRepeated _ => "google._upb._message"
  | .enumV _ _ => "google.ads.googleads.v21.enums.types.ad_type"
  | .adTextAsset _ => "google.ads.googleads.v21.common.types.ad_asset"
  | .protoMsg _ _ _ _ => "google.ads.googleads.v21.resources.types.ad"
  | .pbMsg _ => "google.ads.searchads360.v0"
  | .mappingRaising _ => "app.lazyview"
  | .seqLike _ => "app.vector"
  | _ => "builtins"

/-- The value of `type(value).__name__`. -/
def pyTypeName : PyValue → String
  | .none => "NoneType"
  | .boolV _ => "bool"
  | .intV _ => "int"
  | .strV _ => "str"
  | .bytesV _ => "bytes"
  | .enumV _ _ => "AdType"
  | .adTextAsset _ => "AdTextAsset"
  | .mapping _ => "dict"
  | .mappingRaising _ => "LazyMappingView"
  | .upbRepeated _ => "RepeatedCompositeContainer"
  | .pyList _ => "list"
  | .seqLike _ => "IndexedVector"
  | .protoMsg _ _ _ _ => "Ad"
  | .pbMsg _ => "SearchAds360Row"

/-- Test `hasattr(value, "__iter__")`.  Strings, byte strings, dicts and
upb containers are iterable; per the spec a structured record (proto-plus
message, including `AdTextAsset`) also looks like it has `__iter__`-style
access, which is exactly why the classifier excludes record types before
probing iterability. -/
def pyHasIter : PyValue → Bool
  | .strV _ => true
  | .bytesV _ => true
  | .mapping _ => true
  | .mappingRaising _ => true
  | .upbRepeated _ => true
  | .pyList _ => true
  | .protoMsg _ _ _ _ => true
  | .adTextAsset _ => true
  | _ => false

/-- Test `hasattr(value, "__len__")`. -/
def pyHasLen : PyValue → Bool
  | .strV _ => true
  | .bytesV _ => true
  | .mapping _ => true
  | .mappingRaising _ => true
  | .upbRepeated _ => true
  | .pyList _ => true
  | .seqLike _ => true
  | _ => false

/-- Test `hasattr(value, "__getitem__")`. -/
def pyHasGetitem : PyValue → Bool
  | .strV _ => true
  | .bytesV _ => true
  | .mapping _ => true
  | .mappingRaising _ => true
  | .upbRepeated _ => true
  | .pyList _ => true
  | .seqLike _ => true
  | _ => false

/-- Opaque model of Python's builtin `str()`.  The only facts the
development relies on are that it is total, that `str` of a Python
string is that string itself, and the fixed value it yields on each
remaining shape. -/
def pyStr : PyValue → String
  | .none => "None"
  | .boolV true => "True"
  | .boolV false => "False"
  | .intV n => toString n
  | .strV s => s
  | .bytesV _ => "b..."
  | .enumV n _ => n
  | .adTextAsset t => "text: " ++ t
  | .mapping _ => "a dict"
  | .mappingRaising s => s
  | .upbRepeated _ => "[repeated]"
  | .pyList _ => "[...]"
  | .seqLike _ => "[indexed]"
  | .protoMsg _ _ _ _ => "a message"
  | .pbMsg _ => "a pb message"

/-- Translation of `_is_repeated_container` (utils.py:104-140),
check for check in source order: exclude `None`, text/byte strings,
mappings and proto-plus messages; then match the upb container type
signature; then probe `__iter__`; then probe `__len__` with
`__getitem__`. -/
def _is_repeated_container (value : PyValue) : Bool :=
  if pyIsNone value then false
  else if pyIsStrOrBytes value then false
  else if pyIsMapping value then false
  else if pyIsProtoMessage value then false
  else if strStartsWith (pyTypeModule value) "google._upb._message"
      && strStartsWith (pyTypeName value) "Repeated" then true
  else if pyHasIter value then true
  else if pyHasLen value && pyHasGetitem value then true
  else false

/-- Model of Python `getattr(obj, name)` on the embedded universe,
returning `AttributeError` when the attribute is missing.  `None`
possesses the inherited attribute `__doc__` (a string in CPython); an
`AdTextAsset` exposes `text`; a proto-plus message exposes its attribute
table, with the names in `raisingAttrs` raising a non-attribute error
from their property getter. -/
def pyGetAttr : PyValue → String → Except PyErr PyValue
  | .none, name =>
      if name = "__doc__" then .ok (.strV "NoneType(object)") else .error (.attributeError name)
  | .adTextAsset t, name =>
      if name = "text" then .ok (.strV t) else .error (.attributeError name)
  | .protoMsg _ attrs _ raisingAttrs, name =>
      if raisingAttrs.contains name then .error (.runtimeError name)
      else
        match attrs.lookup name with
        | some v => .ok v
        | Option.none => .error (.attributeError name)
  | _, name => .error (.attributeError name)

/-- Translation of `_get_attr_with_reserved_fallback` (utils.py:143-167):
raise immediately when the object is `None`; otherwise try the name
directly, then the name with a trailing underscore, then — only when the
name itself ends in an underscore — the name with that underscore
stripped; each attempt swallows any exception, and on full failure raise
`AttributeError(name)`. -/
def _get_attr_with_reserved_fallback (obj : PyValue) (name : String) : Except PyErr PyValue :=
  if pyIsNone obj then .error (.attributeError name)
  else
    match pyGetAttr obj name with
    | .ok v => .ok v
    | .error _ =>
      match pyGetAttr obj (name ++ "_") with
      | .ok v => .ok v
      | .error _ =>
        if endsUnderscore name then
          match pyGetAttr obj (dropLastChar name) with
          | .ok v => .ok v
          | .error _ => .error (.attributeError name)
        else .error (.attributeError name)

/-- Python `d[k] = v` on a string-keyed dict represented as an
association list: when an equal key is present its value is updated in
place (position and key object preserved); otherwise the pair is
appended, matching CPython's insertion-order semantics. -/
def strDictInsert (d : List (String × PyValue)) (k : String) (v : PyValue) :
    List (String × PyValue) :=
  if d.any (fun p => p.1 == k) then d.map (fun p => if p.1 == k then (p.1, v) else p)
  else d ++ [(k, v)]

/-- Build a dict by inserting the pairs left to right (the semantics of a
dict comprehension and of a `for` loop of `d[k] = v` statements):
duplicate keys collapse to one entry at the first occurrence's position,
with the last write's value. -/
def strDictFromList (l : List (String × PyValue)) : List (String × PyValue) :=
  l.foldl (fun d p => strDictInsert d p.1 p.2) []

/-- View a string-keyed dict as a `PyValue` mapping entry list. -/
def toMappingPairs (l : List (String × PyValue)) : List (PyValue × PyValue) :=
  l.map (fun p => (PyValue.strV p.1, p.2))

/-- The loop body of `get_nested_attr_safe` (utils.py:175-177): walk the
already-split path segments, threading the current object. -/
def resolveSegs : PyValue → List String → Except PyErr PyValue
  | cur, [] => .ok cur
  | cur, part :: rest =>
    match _get_attr_with_reserved_fallback cur part with
    | .ok nxt => resolveSegs nxt rest
    | .error e => .error e

/-- Translation of `get_nested_attr_safe` (utils.py:170-178): split the
path on `.` and resolve segment by segment. -/
def get_nested_attr_safe (obj : PyValue) (path : String) : Except PyErr PyValue :=
  resolveSegs obj (splitDots path)

mutual

/-- Embed a JSON value into the Python universe (the shape of the plain
dict/list/scalar structures returned by `MessageToDict`). -/
def Json.toPy : Json → PyValue
  | .null => PyValue.none
  | .boolJ b => .boolV b
  | .numJ n => .intV n
  | .strJ s => .strV s
  | .arrJ xs => .pyList (Json.toPyList xs)
  | .objJ fields => .mapping (toMappingPairs (strDictFromList (Json.toPyFields fields)))

/-- Embed a list of JSON values elementwise. -/
def Json.toPyList : List Json → List PyValue
  | [] => []
  | x :: xs => Json.toPy x :: Json.toPyList xs

/-- Embed JSON object fields pairwise. -/
def Json.toPyFields : List (String × Json) → List (String × PyValue)
  | [] => []
  | (n, j) :: rest => (n, Json.toPy j) :: Json.toPyFields rest

end

mutual

/-- Translation of `format_output_value` (utils.py:181-252): run the
`try` block `fovTry`; on success return its value, and on any exception
log and return `str(value)` (the `except` handler at utils.py:247-252). -/
def format_output_value (value : PyValue) : PyValue :=
  match fovTry value with
  | .ok w => w
  | .error _ => .strV (pyStr value)

/-- The `try` block of `format_output_value`, branch for branch in source
order; each constructor of `PyValue` lands in the first test of the
source that matches it:

* `None` → `None` (utils.py:192);
* `proto.Enum` → its `name` (utils.py:196);
* type named `AdTextAsset` with a `text` attribute → that attribute,
  returned raw (utils.py:201);
* `Mapping` → dict comprehension `{str(k): format_output_value(v)}`
  (utils.py:206); a mapping whose `items()` raises propagates its
  exception to the handler;
* repeated containers (`_is_repeated_container` true: upb containers,
  iterables, len+getitem sequences) → list of recursively converted
  elements (utils.py:210);
* `proto.Message` with `_pb.ListFields` → dict of populated fields
  (utils.py:214-220), otherwise the `dir()` scan fallback
  (utils.py:222-234) skipping underscore-prefixed, raising and callable
  attributes;
* raw protobuf messages → `MessageToDict(value,
  preserving_proto_field_name=True)` (utils.py:237);
* everything else (scalars, including byte strings) → returned
  unchanged (utils.py:245). -/
def fovTry : PyValue → Except PyErr PyValue
  | .none => .ok .none
  | .enumV n _ => .ok (.strV n)
  | .adTextAsset t => .ok (.strV t)
  | .mapping items => .ok (.mapping (toMappingPairs (strDictFromList (fovMapItems items))))
  | .mappingRaising _ => .error (.runtimeError "items() raised")
  | .upbRepeated xs => .ok (.pyList (fovList xs))
  | .pyList xs => .ok (.pyList (fovList xs))
  | .seqLike xs => .ok (.pyList (fovList xs))
  | .protoMsg (some fields) _ _ _ => .ok (.mapping (toMappingPairs (strDictFromList (fovPairs fields))))
  | .protoMsg Option.none attrs callables _ =>
      .ok (.mapping (toMappingPairs (strDictFromList (fovScan attrs callables))))
  | .pbMsg fields => .ok (.mapping (toMappingPairs (strDictFromList (Json.toPyFields fields))))
  | .boolV b => .ok (.boolV b)
  | .intV n => .ok (.intV n)
  | .strV s => .ok (.strV s)
  | .bytesV bs => .ok (.bytesV bs)

/-- Elementwise recursive conversion of a repeated container's items. -/
def fovList : List PyValue → List PyValue
  | [] => []
  | x :: xs => format_output_value x :: fovList xs

/-- The pairs produced by the Mapping dict comprehension, before dict
insertion: key `str(k)`, value recursively converted. -/
def fovMapItems : List (PyValue × PyValue) → List (String × PyValue)
  | [] => []
  | (k, v) :: rest => (pyStr k, format_output_value v) :: fovMapItems rest

/-- The pairs produced by the `ListFields` loop: declared field name,
recursively converted field value. -/
def fovPairs : List (String × PyValue) → List (String × PyValue)
  | [] => []
  | (n, v) :: rest => (n, format_output_value v) :: fovPairs rest

/-- The `dir()` scan fallback loop: skip underscore-prefixed names and
callables (names whose getter raises are absent from the attribute table
and hence contribute nothing, matching the `except: continue`), convert
the rest recursively. -/
def fovScan : List (String × PyValue) → List String → List (String × PyValue)
  | [], _ => []
  | (n, v) :: rest, callables =>
    if strStartsWith n "_" || callables.contains n then fovScan rest callables
    else (n, format_output_value v) :: fovScan rest callables

end

/-- Key of a mapping entry when it is a Python string. -/
def entryKey (p : PyValue × PyValue) : Option String :=
  match p.1 with
  | .strV s => some s
  | _ => Option.none

/-- Check that a list of strings has no duplicates. -/
def strsNodup : List String → Bool
  | [] => true
  | s :: rest => !rest.contains s && strsNodup rest

mutual

/-- The shapes `format_output_value` emits: `None`, booleans, integers,
strings, byte strings passed through, lists of such values, and
mappings whose keys are distinct Python strings and whose values are
again such values. -/
def isOutputShape : PyValue → Bool
  | .none => true
  | .boolV _ => true
  | .intV _ => true
  | .strV _ => true
  | .bytesV _ => true
  | .pyList xs => isOutputShapeList xs
  | .mapping items =>
      isOutputShapeEntries items && strsNodup (items.filterMap entryKey)
  | _ => false

/-- Elementwise output-shape check. -/
def isOutputShapeList : List PyValue → Bool
  | [] => true
  | x :: xs => isOutputShape x && isOutputShapeList xs

/-- Entrywise output-shape check: string key, output-shaped value. -/
def isOutputShapeEntries : List (PyValue × PyValue) → Bool
  | [] => true
  | (k, v) :: rest =>
      (match k with | .strV _ => true | _ => false) && isOutputShape v
        && isOutputShapeEntries rest

end

mutual

/-- A value free of byte strings in every position. -/
def noBytes : PyValue → Bool
  | .none => true
  | .boolV _ => true
  | .intV _ => true
  | .strV _ => true
  | .bytesV _ => false
  | .enumV _ _ => true
  | .adTextAsset _ => true
  | .mapping items => noBytesEntries items
  | .mappingRaising _ => true
  | .upbRepeated xs => noBytesList xs
  | .pyList xs => noBytesList xs
  | .seqLike xs => noBytesList xs
  | .protoMsg (some fields) attrs _ _ => noBytesPairs fields && noBytesPairs attrs
  | .protoMsg Option.none attrs _ _ => noBytesPairs attrs
  | .pbMsg _ => true

/-- Elementwise byte-freedom. -/
def noBytesList : List PyValue → Bool
  | [] => true
  | x :: xs => noBytes x && noBytesList xs

/-- Entrywise byte-freedom (keys and values). -/
def noBytesEntries : List (PyValue × PyValue) → Bool
  | [] => true
  | (k, v) :: rest => noBytes k && noBytes v && noBytesEntries rest

/-- Valuewise byte-freedom for named pairs. -/
def noBytesPairs : List (String × PyValue) → Bool
  | [] => true
  | (_, v) :: rest => noBytes v && noBytesPairs rest

end

/-- A Normalized Value in the sense of spec section 3: an output shape
with no byte strings — built only from null, booleans, integers and
strings, ordered sequences of such values, and mappings with (distinct)
string keys; exactly the values the universal JSON model represents with
no loss. -/
def isNormalized (v : PyValue) : Bool :=
  isOutputShape v && noBytes v

/-- The body of the per-path loop of `format_output_row`
(utils.py:258-266): resolve the path against the row and convert, and on
any resolution failure substitute `None`. -/
def rowCell (row : PyValue) (attr : String) : PyValue :=
  match get_nested_attr_safe row attr with
  | .ok raw => format_output_value raw
  | .error _ => PyValue.none

/-- Translation of `format_output_row` (utils.py:255-267): starting from
an empty dict, for each requested path in order store the path's cell
under the path string itself. -/
def format_output_row (row : PyValue) (attributes : List String) :
    List (String × PyValue) :=
  attributes.foldl (fun out attr => strDictInsert out attr (rowCell row attr)) []

/-- First-occurrence deduplication of a key list: the key sequence a
Python dict ends up with after inserting the keys in order. -/
def dedupFirstAux (acc : List String) : List String → List String
  | [] => acc
  | k :: rest =>
      if acc.contains k then dedupFirstAux acc rest
      else dedupFirstAux (acc ++ [k]) rest

/-- The requested paths with later duplicates dropped, order preserved. -/
def dedupFirst (ks : List String) : List String :=
  dedupFirstAux [] ks

/-- A nested `ad` object whose `type` field is exposed only under the
reserved-word-suffixed attribute name `type_` (the natural name is
shadowed), as proto-plus does for the `Ad.type` field. -/
def adObj : PyValue :=
  .protoMsg Option.none [("type_", .enumV "RESPONSIVE_SEARCH_AD" 15)] [] []

/-- An `ad_group_ad` wrapper exposing the nested `ad` object. -/
def adGroupAdObj : PyValue :=
  .protoMsg Option.none [("ad", adObj)] [] []

/-- A search result row exposing `ad_group_ad`, used as the concrete
record of the spec's examples. -/
def campaignRecord : PyValue :=
  .protoMsg Option.none [("ad_group_ad", adGroupAdObj)] [] []

/-- A record whose attribute `a` is `None`, to exercise resolution
through a null intermediate. -/
def noneHolder : PyValue :=
  .protoMsg Option.none [("a", PyValue.none)] [] []

/-- A record whose attribute `type` has a raising property getter (a
non-`AttributeError` exception) while `type_` is a plain attribute. -/
def raisingGetterObj : PyValue :=
  .protoMsg Option.none [("type_", .strV "SHOPPING")] [] ["type"]

theorem bool_eq_of_iff {a b : Bool} (h : a = true ↔ b = true) : a = b := by
  cases a <;> cases b <;> simp_all

theorem strsContains_iff (ks : List String) (k : String) :
    ks.contains k = true ↔ k ∈ ks :=
  List.elem_iff

theorem any_key_eq_contains (d : List (String × PyValue)) (k : String) :
    (d.any fun p => p.1 == k) = (d.map Prod.fst).contains k := by
  refine bool_eq_of_iff ?_
  rw [strsContains_iff]
  constructor
  · intro h
    obtain ⟨p, hp, he⟩ := List.any_eq_true.mp h
    exact List.mem_map.mpr ⟨p, hp, by simpa using he⟩
  · intro h
    obtain ⟨p, hp, he⟩ := List.mem_map.mp h
    exact List.any_eq_true.mpr ⟨p, hp, by simpa using he⟩

theorem map_fst_update (d : List (String × PyValue)) (k : String) (v : PyValue) :
    (d.map fun p => if p.1 == k then (p.1, v) else p).map Prod.fst = d.map Prod.fst := by
  rw [List.map_map]
  refine List.map_congr_left ?_
  intro p _
  by_cases h : p.1 = k <;> simp [h]

theorem keys_strDictInsert (d : List (String × PyValue)) (k : String) (v : PyValue) :
    (strDictInsert d k v).map Prod.fst =
      if (d.map Prod.fst).contains k then d.map Prod.fst else d.map Prod.fst ++ [k] := by
  unfold strDictInsert
  rw [any_key_eq_contains]
  by_cases h : ((d.map Prod.fst).contains k) = true
  · rw [if_pos h, if_pos h]
    exact map_fst_update d k v
  · rw [if_neg h, if_neg h, List.map_append]
    rfl

theorem mem_entry_strDictInsert (d : List (String × PyValue)) (k : String) (v : PyValue)
    (p : String × PyValue) (hp : p ∈ strDictInsert d k v) : p ∈ d ∨ p = (k, v) := by
  unfold strDictInsert at hp
  by_cases h : (d.any fun q => q.1 == k) = true
  · rw [if_pos h] at hp
    obtain ⟨q, hq, hqe⟩ := List.mem_map.mp hp
    by_cases hq1 : (q.1 == k) = true
    · have hk : q.1 = k := by simpa using hq1
      rw [if_pos hq1, hk] at hqe
      exact Or.inr hqe.symm
    · rw [if_neg hq1] at hqe
      exact Or.inl (hqe ▸ hq)
  · rw [if_neg h] at hp
    rcases List.mem_append.mp hp with h1 | h1
    · exact Or.inl h1
    · exact Or.inr (List.mem_singleton.mp h1)

theorem lookup_of_uniform (d : List (String × PyValue)) (k : String) (v : PyValue)
    (hmem : k ∈ d.map Prod.fst) (huni : ∀ p ∈ d, p.1 = k → p.2 = v) :
    d.lookup k = some v := by
  induction d with
  | nil => simp at hmem
  | cons p rest ih =>
      obtain ⟨a, b⟩ := p
      by_cases h : a = k
      · have hv : b = v := huni (a, b) (List.mem_cons_self _ _) h
        have hba : (k == a) = true := beq_iff_eq.mpr h.symm
        simp [List.lookup, hba, hv]
      · have hmem2 : k ∈ rest.map Prod.fst := by
          simp only [List.map_cons, List.mem_cons] at hmem
          rcases hmem with h1 | h1
          · exact absurd h1.symm h
          · exact h1
        have huni2 : ∀ q ∈ rest, q.1 = k → q.2 = v :=
          fun q hq => huni q (List.mem_cons_of_mem _ hq)
        have hba : (k == a) = false := beq_eq_false_iff_ne.mpr (Ne.symm h)
        simp [List.lookup, hba, ih hmem2 huni2]

theorem lookup_eq_none_of_not_mem (d : List (String × PyValue)) (k : String)
    (h : ¬k ∈ d.map Prod.fst) : d.lookup k = Option.none := by
  induction d with
  | nil => simp [List.lookup]
  | cons p rest ih =>
      obtain ⟨a, b⟩ := p
      simp only [List.map_cons, List.mem_cons] at h
      push_neg at h
      have hba : (k == a) = false := beq_eq_false_iff_ne.mpr h.1
      simp [List.lookup, hba, ih h.2]

theorem foldl_entry_uniform (k : String) (v : PyValue) (l : List (String × PyValue)) :
    ∀ acc, (∀ p ∈ acc, p.1 = k → p.2 = v) → (∀ p ∈ l, p.1 = k → p.2 = v) →
      ∀ p ∈ l.foldl (fun d q => strDictInsert d q.1 q.2) acc, p.1 = k → p.2 = v := by
  induction l with
  | nil => intro acc hacc _ p hp; exact hacc p hp
  | cons q rest ih =>
      intro acc hacc hl p hp
      refine ih (strDictInsert acc q.1 q.2) ?_ (fun r hr => hl r (List.mem_cons_of_mem q hr)) p hp
      intro r hr hrk
      rcases mem_entry_strDictInsert acc q.1 q.2 r hr with h1 | h1
      · exact hacc r h1 hrk
      · have : q.2 = v := hl q (List.mem_cons_self q rest) (by rw [h1] at hrk; exact hrk)
        rw [h1]
        exact this

theorem foldl_mem_keys (k : String) (l : List (String × PyValue)) :
    ∀ acc, (k ∈ acc.map Prod.fst ∨ k ∈ l.map Prod.fst) →
      k ∈ (l.foldl (fun d q => strDictInsert d q.1 q.2) acc).map Prod.fst := by
  induction l with
  | nil => intro acc h; simpa using h
  | cons q rest ih =>
      intro acc h
      refine ih (strDictInsert acc q.1 q.2) ?_
      have hins : ∀ a, a ∈ acc.map Prod.fst ∨ a = q.1 →
          a ∈ (strDictInsert acc q.1 q.2).map Prod.fst := by
        intro a ha
        rw [keys_strDictInsert]
        by_cases hc : (acc.map Prod.fst).contains q.1 = true
        · simp only [hc, if_true]
          rcases ha with h1 | h1
          · exact h1
          · rw [h1]; exact (strsContains_iff _ _).mp hc
        · simp only [hc, if_false]
          rcases ha with h1 | h1
          · exact List.mem_append_left _ h1
          · rw [h1]; exact List.mem_append_right _ (List.mem_singleton.mpr rfl)
      rcases h with h1 | h1
      · exact Or.inl (hins k (Or.inl h1))
      · simp only [List.map_cons, List.mem_cons] at h1
        rcases h1 with h2 | h2
        · exact Or.inl (hins k (Or.inr h2))
        · exact Or.inr h2

theorem keys_foldl_insert (l : List (String × PyValue)) :
    ∀ acc, ((l.foldl (fun d q => strDictInsert d q.1 q.2) acc).map Prod.fst) =
      dedupFirstAux (acc.map Prod.fst) (l.map Prod.fst) := by
  induction l with
  | nil => intro acc; rfl
  | cons q rest ih =>
      intro acc
      obtain ⟨k, v⟩ := q
      simp only [List.foldl_cons, List.map_cons]
      rw [ih, dedupFirstAux]
      by_cases h : ((acc.map Prod.fst).contains k) = true
      · rw [if_pos h]
        congr 1
        rw [keys_strDictInsert, if_pos h]
      · rw [if_neg h]
        congr 1
        rw [keys_strDictInsert, if_neg h]

theorem mem_dedupFirstAux (ks : List String) :
    ∀ acc a, a ∈ dedupFirstAux acc ks ↔ a ∈ acc ∨ a ∈ ks := by
  induction ks with
  | nil => intro acc a; simp [dedupFirstAux]
  | cons k rest ih =>
      intro acc a
      rw [dedupFirstAux]
      by_cases h : (acc.contains k) = true
      · rw [if_pos h, ih]
        constructor
        · rintro (h1 | h1)
          · exact Or.inl h1
          · exact Or.inr (List.mem_cons_of_mem _ h1)
        · rintro (h1 | h1)
          · exact Or.inl h1
          · rcases List.mem_cons.mp h1 with h2 | h2
            · exact Or.inl (h2 ▸ (strsContains_iff _ _).mp h)
            · exact Or.inr h2
      · rw [if_neg h, ih]
        simp [List.mem_append, List.mem_cons, or_assoc]

theorem strsNodup_iff (ks : List String) : strsNodup ks = true ↔ ks.Nodup := by
  induction ks with
  | nil => simp [strsNodup]
  | cons s rest ih =>
      rw [strsNodup, List.nodup_cons, Bool.and_eq_true, Bool.not_eq_true']
      constructor
      · rintro ⟨h1, h2⟩
        refine ⟨fun hmem => ?_, ih.mp h2⟩
        rw [(strsContains_iff rest s).mpr hmem] at h1
        cases h1
      · rintro ⟨h1, h2⟩
        refine ⟨?_, ih.mpr h2⟩
        cases hc : rest.contains s with
        | false => rfl
        | true => exact absurd ((strsContains_iff rest s).mp hc) h1

theorem nodup_keys_strDictInsert (d : List (String × PyValue)) (k : String) (v : PyValue)
    (h : (d.map Prod.fst).Nodup) : ((strDictInsert d k v).map Prod.fst).Nodup := by
  rw [keys_strDictInsert]
  by_cases hc : ((d.map Prod.fst).contains k) = true
  · rw [if_pos hc]; exact h
  · rw [if_neg hc]
    have hk : ¬k ∈ d.map Prod.fst := fun hm => hc ((strsContains_iff _ _).mpr hm)
    simp [List.nodup_append, h, hk]

theorem nodup_keys_foldl_insert (l : List (String × PyValue)) :
    ∀ acc, (acc.map Prod.fst).Nodup →
      ((l.foldl (fun d q => strDictInsert d q.1 q.2) acc).map Prod.fst).Nodup := by
  induction l with
  | nil => intro acc h; exact h
  | cons q rest ih =>
      intro acc h
      exact ih _ (nodup_keys_strDictInsert acc q.1 q.2 h)

theorem nodup_keys_strDictFromList (l : List (String × PyValue)) :
    ((strDictFromList l).map Prod.fst).Nodup :=
  nodup_keys_foldl_insert l [] (by simp)

theorem strDictInsert_of_not_mem (d : List (String × PyValue)) (k : String) (v : PyValue)
    (h : ¬k ∈ d.map Prod.fst) : strDictInsert d k v = d ++ [(k, v)] := by
  unfold strDictInsert
  rw [any_key_eq_contains, if_neg (fun hc => h ((strsContains_iff _ _).mp hc))]

theorem foldl_insert_id (l : List (String × PyValue)) :
    ∀ acc, (((acc ++ l).map Prod.fst).Nodup) →
      l.foldl (fun d q => strDictInsert d q.1 q.2) acc = acc ++ l := by
  induction l with
  | nil => intro acc _; simp
  | cons q rest ih =>
      intro acc h
      obtain ⟨k, v⟩ := q
      have hk : ¬k ∈ acc.map Prod.fst := by
        simp only [List.map_append, List.map_cons, List.nodup_append] at h
        intro hm
        exact h.2.2 hm (List.mem_cons_self _ _)
      have h2 : (((acc ++ [(k, v)]) ++ rest).map Prod.fst).Nodup := by
        simpa [List.append_assoc] using h
      simp only [List.foldl_cons]
      rw [strDictInsert_of_not_mem acc k v hk, ih _ h2, List.append_assoc]
      rfl

theorem strDictFromList_id (l : List (String × PyValue))
    (h : (l.map Prod.fst).Nodup) : strDictFromList l = l := by
  unfold strDictFromList
  rw [foldl_insert_id l [] (by simpa using h)]
  rfl

theorem strDict_values_pred (P : PyValue → Prop) (l : List (String × PyValue)) :
    ∀ acc, (∀ p ∈ acc, P p.2) → (∀ p ∈ l, P p.2) →
      ∀ p ∈ l.foldl (fun d q => strDictInsert d q.1 q.2) acc, P p.2 := by
  induction l with
  | nil => intro acc hacc _ p hp; exact hacc p hp
  | cons q rest ih =>
      intro acc hacc hl p hp
      refine ih _ ?_ (fun r hr => hl r (List.mem_cons_of_mem q hr)) p hp
      intro r hr
      rcases mem_entry_strDictInsert acc q.1 q.2 r hr with h1 | h1
      · exact hacc r h1
      · rw [h1]
        exact hl q (List.mem_cons_self q rest)

theorem strDictFromList_values (P : PyValue → Prop) (l : List (String × PyValue))
    (hl : ∀ p ∈ l, P p.2) : ∀ p ∈ strDictFromList l, P p.2 :=
  strDict_values_pred P l [] (by simp) hl

theorem format_output_row_eq_fromList (row : PyValue) (attributes : List String) :
    format_output_row row attributes =
      strDictFromList (attributes.map fun a => (a, rowCell row a)) := by
  unfold format_output_row strDictFromList
  rw [List.foldl_map]

theorem fallback_error_shape (obj : PyValue) (name : String) (e : PyErr)
    (h : _get_attr_with_reserved_fallback obj name = .error e) : e = .attributeError name := by
  unfold _get_attr_with_reserved_fallback at h
  by_cases h0 : pyIsNone obj = true
  · rw [if_pos h0] at h
    injection h with h
    exact h.symm
  · rw [if_neg h0] at h
    cases h1 : pyGetAttr obj name with
    | ok v => rw [h1] at h; cases h
    | error e1 =>
      rw [h1] at h
      cases h2 : pyGetAttr obj (name ++ "_") with
      | ok v => rw [h2] at h; cases h
      | error e2 =>
        rw [h2] at h
        by_cases hend : endsUnderscore name = true
        · rw [if_pos hend] at h
          cases h3 : pyGetAttr obj (dropLastChar name) with
          | ok v => rw [h3] at h; cases h
          | error e3 => rw [h3] at h; injection h with h; exact h.symm
        · rw [if_neg hend] at h
          injection h with h
          exact h.symm

theorem resolveSegs_append (l1 l2 : List String) :
    ∀ obj, resolveSegs obj (l1 ++ l2) =
      match resolveSegs obj l1 with
      | .ok cur => resolveSegs cur l2
      | .error e => .error e := by
  induction l1 with
  | nil => intro obj; rfl
  | cons part rest ih =>
      intro obj
      show (match _get_attr_with_reserved_fallback obj part with
            | .ok nxt => resolveSegs nxt (rest ++ l2)
            | .error e => .error e) = _
      cases h : _get_attr_with_reserved_fallback obj part with
      | ok nxt => simp [resolveSegs, h, ih nxt]
      | error e => simp [resolveSegs, h]

theorem resolveSegs_error_mem (segs : List String) :
    ∀ obj e, resolveSegs obj segs = .error e → ∃ s, s ∈ segs ∧ e = .attributeError s := by
  induction segs with
  | nil => intro obj e h; cases h
  | cons part rest ih =>
      intro obj e h
      rw [resolveSegs] at h
      cases h1 : _get_attr_with_reserved_fallback obj part with
      | ok nxt =>
          rw [h1] at h
          obtain ⟨s, hs, he⟩ := ih nxt e h
          exact ⟨s, List.mem_cons_of_mem _ hs, he⟩
      | error e1 =>
          rw [h1] at h
          injection h with h
          exact ⟨part, List.mem_cons_self _ _, h ▸ fallback_error_shape obj part e1 h1⟩

/-- C5: at every segment the resolver tries, in order, the segment name
directly, then the name with a trailing underscore appended, and then —
only when the segment itself already ends in the underscore marker — the
name with the marker stripped; consequently resolving the path
`ad_group_ad.ad.type` yields exactly the value of direct access to the
suffixed attribute `type_` on the nested `ad` object when the natural
name is shadowed. -/
theorem reserved_fallback_order :
    (∀ obj name v, pyIsNone obj = false → pyGetAttr obj name = .ok v →
      _get_attr_with_reserved_fallback obj name = .ok v) ∧
    (∀ obj name e v, pyIsNone obj = false → pyGetAttr obj name = .error e →
      pyGetAttr obj (name ++ "_") = .ok v →
      _get_attr_with_reserved_fallback obj name = .ok v) ∧
    (∀ obj name e1 e2 v, pyIsNone obj = false → endsUnderscore name = true →
      pyGetAttr obj name = .error e1 → pyGetAttr obj (name ++ "_") = .error e2 →
      pyGetAttr obj (dropLastChar name) = .ok v →
      _get_attr_with_reserved_fallback obj name = .ok v) ∧
    (∀ obj name e1 e2, pyIsNone obj = false → endsUnderscore name = false →
      pyGetAttr obj name = .error e1 → pyGetAttr obj (name ++ "_") = .error e2 →
      _get_attr_with_reserved_fallback obj name = .error (.attributeError name)) ∧
    (get_nested_attr_safe campaignRecord "ad_group_ad.ad.type" = pyGetAttr adObj "type_" ∧
      get_nested_attr_safe campaignRecord "ad_group_ad.ad.type" =
        .ok (.enumV "RESPONSIVE_SEARCH_AD" 15)) := by
  refine ⟨?_, ?_, ?_, ?_, rfl, rfl⟩
  · intro obj name v h0 h1
    simp [_get_attr_with_reserved_fallback, h0, h1]
  · intro obj name e v h0 h1 h2
    simp [_get_attr_with_reserved_fallback, h0, h1, h2]
  · intro obj name e1 e2 v h0 hend h1 h2 h3
    simp [_get_attr_with_reserved_fallback, h0, hend, h1, h2, h3]
  · intro obj name e1 e2 h0 hend h1 h2
    simp [_get_attr_with_reserved_fallback, h0, hend, h1, h2]

/-- C5 witness: on the `ad` object the natural name `type` is missing
and the fallback resolves the suffixed `type_`. -/
theorem reserved_fallback_order_witness :
    _get_attr_with_reserved_fallback adObj "type" = .ok (.enumV "RESPONSIVE_SEARCH_AD" 15) :=
  reserved_fallback_order.2.1 adObj "type" (.attributeError "type")
    (.enumV "RESPONSIVE_SEARCH_AD" 15) rfl rfl rfl

/-- C6 counterexample: the claim's "fails exactly when some segment
cannot be resolved by any of the three naming strategies" is false on
the code: when an intermediate object is `None`, the resolver raises
`AttributeError` for the next segment without trying the strategies at
all, even for a segment (`__doc__`) that the first strategy — direct
attribute access on `None` — would resolve. -/
theorem resolve_failure_counterexample :
    pyGetAttr PyValue.none "__doc__" = .ok (.strV "NoneType(object)") ∧
    _get_attr_with_reserved_fallback PyValue.none "__doc__" =
      .error (.attributeError "__doc__") ∧
    get_nested_attr_safe noneHolder "a.__doc__" = .error (.attributeError "__doc__") :=
  ⟨rfl, rfl, rfl⟩

/-- C6 (amended): away from a `None` current object, a segment fails —
always with an `AttributeError` carrying that segment's name — exactly
when all three naming strategies fail; a `None` current object fails
unconditionally; any path-level failure carries the name of some segment
of the path; and `missing.field` fails on a record without such fields. -/
theorem resolve_failure_characterization :
    (∀ obj name, pyIsNone obj = false →
      (_get_attr_with_reserved_fallback obj name = .error (.attributeError name) ↔
        ((∃ e, pyGetAttr obj name = .error e) ∧
         (∃ e, pyGetAttr obj (name ++ "_") = .error e) ∧
         (endsUnderscore name = true → ∃ e, pyGetAttr obj (dropLastChar name) = .error e)))) ∧
    (∀ name, _get_attr_with_reserved_fallback PyValue.none name =
      .error (.attributeError name)) ∧
    (∀ obj name, (∃ v, _get_attr_with_reserved_fallback obj name = .ok v) ∨
      _get_attr_with_reserved_fallback obj name = .error (.attributeError name)) ∧
    (∀ obj path e, get_nested_attr_safe obj path = .error e →
      ∃ s, s ∈ splitDots path ∧ e = .attributeError s) ∧
    get_nested_attr_safe campaignRecord "missing.field" = .error (.attributeError "missing") := by
  refine ⟨?_, fun name => rfl, ?_, ?_, rfl⟩
  · intro obj name h0
    constructor
    · intro h
      cases h1 : pyGetAttr obj name with
      | ok v => simp [_get_attr_with_reserved_fallback, h0, h1] at h
      | error e1 =>
        cases h2 : pyGetAttr obj (name ++ "_") with
        | ok v => simp [_get_attr_with_reserved_fallback, h0, h1, h2] at h
        | error e2 =>
          refine ⟨⟨e1, rfl⟩, ⟨e2, rfl⟩, ?_⟩
          intro hend
          cases h3 : pyGetAttr obj (dropLastChar name) with
          | ok v => simp [_get_attr_with_reserved_fallback, h0, h1, h2, hend, h3] at h
          | error e3 => exact ⟨e3, rfl⟩
    · rintro ⟨⟨e1, h1⟩, ⟨e2, h2⟩, h3⟩
      cases hend : endsUnderscore name with
      | false => simp [_get_attr_with_reserved_fallback, h0, h1, h2, hend]
      | true =>
          obtain ⟨e3, hh3⟩ := h3 hend
          simp [_get_attr_with_reserved_fallback, h0, h1, h2, hend, hh3]
  · intro obj name
    cases h : _get_attr_with_reserved_fallback obj name with
    | ok v => exact Or.inl ⟨v, rfl⟩
    | error e =>
        have he := fallback_error_shape obj name e h
        exact Or.inr (by rw [he])
  · intro obj path e h
    exact resolveSegs_error_mem (splitDots path) obj e h

/-- C6 witness: the concrete `missing.field` failure instantiates the
path-level conjunct, exhibiting the failing segment `missing`. -/
theorem resolve_failure_characterization_witness :
    get_nested_attr_safe campaignRecord "missing.field" =
      .error (.attributeError "missing") ∧
    ∃ s, s ∈ splitDots "missing.field" ∧ PyErr.attributeError "missing" = .attributeError s :=
  ⟨resolve_failure_characterization.2.2.2.2,
   resolve_failure_characterization.2.2.2.1 campaignRecord "missing.field"
     (.attributeError "missing") resolve_failure_characterization.2.2.2.2⟩

/-- C9: resolving any segment against a `None` current object fails
immediately — even for an attribute that `None` actually possesses, such
as the inherited `__doc__` — so a path whose intermediate resolves to
`None` fails at the next segment, and the row formatter records `None`
for any failing path. -/
theorem null_intermediate_always_fails :
    (∀ name, _get_attr_with_reserved_fallback PyValue.none name =
      .error (.attributeError name)) ∧
    pyGetAttr PyValue.none "__doc__" = .ok (.strV "NoneType(object)") ∧
    (∀ obj segs1 seg segs2, resolveSegs obj segs1 = .ok PyValue.none →
      resolveSegs obj (segs1 ++ seg :: segs2) = .error (.attributeError seg)) ∧
    (∀ row path e, get_nested_attr_safe row path = .error e →
      format_output_row row [path] = [(path, PyValue.none)]) := by
  refine ⟨fun name => rfl, rfl, ?_, ?_⟩
  · intro obj segs1 seg segs2 h
    rw [resolveSegs_append, h]
    rfl
  · intro row path e h
    simp [format_output_row, strDictInsert, rowCell, h]

/-- C9 witness: the record holds `a = None`, so `a.b` fails at segment
`b` and the row formatter binds the path to `None`. -/
theorem null_intermediate_always_fails_witness :
    resolveSegs noneHolder (["a"] ++ "b" :: []) = .error (.attributeError "b") ∧
    format_output_row noneHolder ["a.b"] = [("a.b", PyValue.none)] :=
  ⟨null_intermediate_always_fails.2.2.1 noneHolder ["a"] "b" [] rfl,
   null_intermediate_always_fails.2.2.2 noneHolder "a.b" (.attributeError "b") rfl⟩

/-- C10: the per-segment fallback chain is driven by arbitrary
exceptions, not only missing-attribute errors: whatever error direct
access raises, the underscore-suffixed variant is tried next (and the
stripped variant after it, for marker-suffixed names); and no error of
an individual lookup ever escapes — the resolver returns a value or the
final `AttributeError` carrying the segment name. -/
theorem fallback_on_any_exception :
    (∀ obj name e v, pyIsNone obj = false → pyGetAttr obj name = .error e →
      pyGetAttr obj (name ++ "_") = .ok v →
      _get_attr_with_reserved_fallback obj name = .ok v) ∧
    (∀ obj name e1 e2 v, pyIsNone obj = false → endsUnderscore name = true →
      pyGetAttr obj name = .error e1 → pyGetAttr obj (name ++ "_") = .error e2 →
      pyGetAttr obj (dropLastChar name) = .ok v →
      _get_attr_with_reserved_fallback obj name = .ok v) ∧
    (∀ obj name, (∃ v, _get_attr_with_reserved_fallback obj name = .ok v) ∨
      _get_attr_with_reserved_fallback obj name = .error (.attributeError name)) := by
  refine ⟨?_, ?_, ?_⟩
  · intro obj name e v h0 h1 h2
    simp [_get_attr_with_reserved_fallback, h0, h1, h2]
  · intro obj name e1 e2 v h0 hend h1 h2 h3
    simp [_get_attr_with_reserved_fallback, h0, hend, h1, h2, h3]
  · intro obj name
    cases h : _get_attr_with_reserved_fallback obj name with
    | ok v => exact Or.inl ⟨v, rfl⟩
    | error e =>
        have he := fallback_error_shape obj name e h
        exact Or.inr (by rw [he])

/-- C10 witness: the `type` property getter raises a `RuntimeError`,
which still triggers the suffix fallback to the plain `type_` value. -/
theorem fallback_on_any_exception_witness :
    _get_attr_with_reserved_fallback raisingGetterObj "type" = .ok (.strV "SHOPPING") ∧
    pyGetAttr raisingGetterObj "type" = .error (.runtimeError "type") :=
  ⟨fallback_on_any_exception.1 raisingGetterObj "type" (.runtimeError "type")
    (.strV "SHOPPING") rfl rfl rfl, rfl⟩

/-- C7: repeated-container detection excludes `None`, text and byte
strings, mappings and structured records before any generic probe — so a
proto-plus message, which looks iterable, is never classified as a
repeated container — and for a value in none of the excluded categories
the result is precisely: the upb native type signature, else
iterability, else indexed-with-length access. -/
theorem repeated_container_classification :
    (∀ pb attrs cs rs, _is_repeated_container (.protoMsg pb attrs cs rs) = false ∧
      pyHasIter (.protoMsg pb attrs cs rs) = true) ∧
    _is_repeated_container PyValue.none = false ∧
    (∀ s, _is_repeated_container (.strV s) = false ∧ pyHasIter (.strV s) = true) ∧
    (∀ bs, _is_repeated_container (.bytesV bs) = false ∧ pyHasIter (.bytesV bs) = true) ∧
    (∀ items, _is_repeated_container (.mapping items) = false ∧
      pyHasIter (.mapping items) = true) ∧
    (∀ v, pyIsNone v = false → pyIsStrOrBytes v = false → pyIsMapping v = false →
      pyIsProtoMessage v = false →
      _is_repeated_container v =
        (strStartsWith (pyTypeModule v) "google._upb._message"
            && strStartsWith (pyTypeName v) "Repeated"
          || pyHasIter v || pyHasLen v && pyHasGetitem v)) := by
  refine ⟨fun pb attrs cs rs => ⟨rfl, rfl⟩, rfl, fun s => ⟨rfl, rfl⟩,
    fun bs => ⟨rfl, rfl⟩, fun items => ⟨rfl, rfl⟩, ?_⟩
  intro v h1 h2 h3 h4
  cases v with
  | none => cases h1
  | strV s => cases h2
  | bytesV bs => cases h2
  | mapping items => cases h3
  | mappingRaising s => cases h3
  | protoMsg pb attrs cs rs => cases h4
  | adTextAsset t => cases h4
  | boolV b => rfl
  | intV n => rfl
  | enumV n k => rfl
  | upbRepeated xs => rfl
  | pyList xs => rfl
  | seqLike xs => rfl
  | pbMsg fields => rfl

/-- C7 witness: a len-and-getitem sequence without `__iter__` is not
excluded and is classified as a repeated container by the final probe. -/
theorem repeated_container_classification_witness :
    _is_repeated_container (.seqLike []) = true ∧ pyHasIter (.seqLike []) = false := by
  have h := repeated_container_classification.2.2.2.2.2 (.seqLike []) rfl rfl rfl rfl
  exact ⟨by rw [h]; rfl, rfl⟩

/-- C1: the row formatter is total and its output dict's key sequence is
exactly the requested path list with later duplicates collapsed into the
first occurrence (Python dict insertion-order semantics, last write
winning on the value side), each path string used unmodified; in
particular a path appears as a key if and only if it was requested. -/
theorem row_keys_match_requested_paths (row : PyValue) (attributes : List String) :
    (format_output_row row attributes).map Prod.fst = dedupFirst attributes ∧
    ∀ a, (a ∈ (format_output_row row attributes).map Prod.fst ↔ a ∈ attributes) := by
  have hkeys : (format_output_row row attributes).map Prod.fst = dedupFirst attributes := by
    rw [format_output_row_eq_fromList]
    unfold strDictFromList
    rw [keys_foldl_insert]
    have hfst : ((attributes.map fun a => (a, rowCell row a)).map Prod.fst) = attributes := by
      rw [List.map_map]
      exact List.map_id attributes
    rw [hfst]
    rfl
  refine ⟨hkeys, fun a => ?_⟩
  rw [hkeys]
  unfold dedupFirst
  rw [mem_dedupFirstAux]
  simp

/-- C4: each requested path's binding in the row result is determined by
that path alone — the resolved-and-normalized value on success and
`None` on failure — independent of every other path; unrequested paths
are absent. -/
theorem row_paths_independent :
    (∀ row attributes attr, attr ∈ attributes →
      (format_output_row row attributes).lookup attr = some (rowCell row attr)) ∧
    (∀ row attributes attr, ¬attr ∈ attributes →
      (format_output_row row attributes).lookup attr = Option.none) ∧
    (∀ row attr e, get_nested_attr_safe row attr = .error e →
      rowCell row attr = PyValue.none) := by
  refine ⟨?_, ?_, ?_⟩
  · intro row attributes attr h
    rw [format_output_row_eq_fromList]
    have hfst : (attributes.map fun a => (a, rowCell row a)).map Prod.fst = attributes := by
      rw [List.map_map]
      exact List.map_id attributes
    refine lookup_of_uniform _ attr (rowCell row attr) ?_ ?_
    · exact foldl_mem_keys attr _ [] (Or.inr (by rw [hfst]; exact h))
    · refine foldl_entry_uniform attr (rowCell row attr) _ [] (by simp) ?_
      intro p hp hpk
      obtain ⟨a, _, hae⟩ := List.mem_map.mp hp
      rw [← hae] at hpk ⊢
      simp only at hpk ⊢
      rw [hpk]
  · intro row attributes attr h
    rw [format_output_row_eq_fromList]
    refine lookup_eq_none_of_not_mem _ attr ?_
    intro hmem
    apply h
    unfold strDictFromList at hmem
    rw [keys_foldl_insert] at hmem
    have hfst : (attributes.map fun a => (a, rowCell row a)).map Prod.fst = attributes := by
      rw [List.map_map]
      exact List.map_id attributes
    rw [hfst] at hmem
    rcases (mem_dedupFirstAux attributes _ attr).mp hmem with h1 | h1
    · simp at h1
    · exact h1
  · intro row attr e h
    simp [rowCell, h]

/-- C4 witness: on the concrete record, the failing path is bound to
`None` while the other requested path still resolves and normalizes. -/
theorem row_paths_independent_witness :
    (format_output_row campaignRecord ["ad_group_ad.ad.type", "missing.field"]).lookup
        "missing.field" = some PyValue.none ∧
    (format_output_row campaignRecord ["ad_group_ad.ad.type", "missing.field"]).lookup
        "ad_group_ad.ad.type" = some (.strV "RESPONSIVE_SEARCH_AD") := by
  have h1 := row_paths_independent.1 campaignRecord ["ad_group_ad.ad.type", "missing.field"]
    "missing.field" (by simp)
  have h2 := row_paths_independent.1 campaignRecord ["ad_group_ad.ad.type", "missing.field"]
    "ad_group_ad.ad.type" (by simp)
  have hc1 : rowCell campaignRecord "missing.field" = PyValue.none :=
    row_paths_independent.2.2 campaignRecord "missing.field" (.attributeError "missing") rfl
  have hc2 : rowCell campaignRecord "ad_group_ad.ad.type" = .strV "RESPONSIVE_SEARCH_AD" := by
    simp [rowCell, show get_nested_attr_safe campaignRecord "ad_group_ad.ad.type" =
      .ok (.enumV "RESPONSIVE_SEARCH_AD" 15) from rfl, format_output_value, fovTry]
  rw [h1, h2, hc1, hc2]
  exact ⟨rfl, rfl⟩

theorem entryKey_toMappingPairs (m : List (String × PyValue)) :
    (toMappingPairs m).filterMap entryKey = m.map Prod.fst := by
  induction m with
  | nil => rfl
  | cons p rest ih =>
      obtain ⟨k, v⟩ := p
      simp [toMappingPairs, entryKey, List.filterMap_cons] at ih ⊢
      exact ih

theorem outputShapeEntries_toMappingPairs (m : List (String × PyValue))
    (h : ∀ p ∈ m, isOutputShape p.2 = true) :
    isOutputShapeEntries (toMappingPairs m) = true := by
  induction m with
  | nil => rfl
  | cons p rest ih =>
      obtain ⟨k, v⟩ := p
      have hv : isOutputShape v = true := h (k, v) (List.mem_cons_self _ _)
      have hrest : isOutputShapeEntries (toMappingPairs rest) = true :=
        ih fun q hq => h q (List.mem_cons_of_mem _ hq)
      simp [toMappingPairs, isOutputShapeEntries, hv] at hrest ⊢
      exact hrest

theorem outputShape_mapping_fromList (l : List (String × PyValue))
    (h : ∀ p ∈ l, isOutputShape p.2 = true) :
    isOutputShape (.mapping (toMappingPairs (strDictFromList l))) = true := by
  have hvals : ∀ p ∈ strDictFromList l, isOutputShape p.2 = true :=
    strDictFromList_values (fun v => isOutputShape v = true) l h
  have hnodup : strsNodup ((strDictFromList l).map Prod.fst) = true :=
    (strsNodup_iff _).mpr (nodup_keys_strDictFromList l)
  rw [isOutputShape, Bool.and_eq_true]
  refine ⟨outputShapeEntries_toMappingPairs _ hvals, ?_⟩
  rw [entryKey_toMappingPairs]
  exact hnodup

theorem noBytesEntries_toMappingPairs (m : List (String × PyValue))
    (h : ∀ p ∈ m, noBytes p.2 = true) :
    noBytesEntries (toMappingPairs m) = true := by
  induction m with
  | nil => rfl
  | cons p rest ih =>
      obtain ⟨k, v⟩ := p
      have hv : noBytes v = true := h (k, v) (List.mem_cons_self _ _)
      have hrest : noBytesEntries (toMappingPairs rest) = true :=
        ih fun q hq => h q (List.mem_cons_of_mem _ hq)
      simp [toMappingPairs, noBytesEntries, noBytes, hv] at hrest ⊢
      exact hrest

theorem noBytes_mapping_fromList (l : List (String × PyValue))
    (h : ∀ p ∈ l, noBytes p.2 = true) :
    noBytes (.mapping (toMappingPairs (strDictFromList l))) = true := by
  rw [noBytes]
  exact noBytesEntries_toMappingPairs _
    (strDictFromList_values (fun v => noBytes v = true) l h)

mutual

theorem outputShape_toPy (j : Json) : isOutputShape (Json.toPy j) = true := by
  cases j with
  | null => rfl
  | boolJ b => rfl
  | numJ n => rfl
  | strJ s => rfl
  | arrJ xs =>
      rw [Json.toPy, isOutputShape]
      exact outputShape_toPyList xs
  | objJ fields =>
      rw [Json.toPy]
      exact outputShape_mapping_fromList _ (outputShape_toPyFields fields)

theorem outputShape_toPyList (xs : List Json) :
    isOutputShapeList (Json.toPyList xs) = true := by
  cases xs with
  | nil => rfl
  | cons x rest =>
      rw [Json.toPyList, isOutputShapeList, Bool.and_eq_true]
      exact ⟨outputShape_toPy x, outputShape_toPyList rest⟩

theorem outputShape_toPyFields (fs : List (String × Json)) :
    ∀ p ∈ Json.toPyFields fs, isOutputShape p.2 = true := by
  cases fs with
  | nil => intro p hp; cases hp
  | cons q rest =>
      obtain ⟨n, j⟩ := q
      intro p hp
      rw [Json.toPyFields] at hp
      rcases List.mem_cons.mp hp with h1 | h1
      · rw [h1]
        exact outputShape_toPy j
      · exact outputShape_toPyFields rest p h1

end

mutual

theorem noBytes_toPy (j : Json) : noBytes (Json.toPy j) = true := by
  cases j with
  | null => rfl
  | boolJ b => rfl
  | numJ n => rfl
  | strJ s => rfl
  | arrJ xs =>
      rw [Json.toPy, noBytes]
      exact noBytes_toPyList xs
  | objJ fields =>
      rw [Json.toPy]
      exact noBytes_mapping_fromList _ (noBytes_toPyFields fields)

theorem noBytes_toPyList (xs : List Json) :
    noBytesList (Json.toPyList xs) = true := by
  cases xs with
  | nil => rfl
  | cons x rest =>
      rw [Json.toPyList, noBytesList, Bool.and_eq_true]
      exact ⟨noBytes_toPy x, noBytes_toPyList rest⟩

theorem noBytes_toPyFields (fs : List (String × Json)) :
    ∀ p ∈ Json.toPyFields fs, noBytes p.2 = true := by
  cases fs with
  | nil => intro p hp; cases hp
  | cons q rest =>
      obtain ⟨n, j⟩ := q
      intro p hp
      rw [Json.toPyFields] at hp
      rcases List.mem_cons.mp hp with h1 | h1
      · rw [h1]
        exact noBytes_toPy j
      · exact noBytes_toPyFields rest p h1

end

mutual

theorem outputShape_format (v : PyValue) :
    isOutputShape (format_output_value v) = true := by
  cases v with
  | none => simp [format_output_value, fovTry, isOutputShape]
  | boolV b => simp [format_output_value, fovTry, isOutputShape]
  | intV n => simp [format_output_value, fovTry, isOutputShape]
  | strV s => simp [format_output_value, fovTry, isOutputShape]
  | bytesV bs => simp [format_output_value, fovTry, isOutputShape]
  | enumV n k => simp [format_output_value, fovTry, isOutputShape]
  | adTextAsset t => simp [format_output_value, fovTry, isOutputShape]
  | mappingRaising s => simp [format_output_value, fovTry, isOutputShape]
  | mapping items =>
      rw [format_output_value, fovTry]
      exact outputShape_mapping_fromList _ (outputShape_fovMapItems items)
  | upbRepeated xs =>
      rw [format_output_value, fovTry]
      rw [show (match (Except.ok (PyValue.pyList (fovList xs)) : Except PyErr PyValue) with
            | .ok w => w
            | .error _ => PyValue.strV (pyStr (PyValue.upbRepeated xs))) =
          PyValue.pyList (fovList xs) from rfl]
      rw [isOutputShape]
      exact outputShape_fovList xs
  | pyList xs =>
      rw [format_output_value, fovTry]
      rw [show (match (Except.ok (PyValue.pyList (fovList xs)) : Except PyErr PyValue) with
            | .ok w => w
            | .error _ => PyValue.strV (pyStr (PyValue.pyList xs))) =
          PyValue.pyList (fovList xs) from rfl]
      rw [isOutputShape]
      exact outputShape_fovList xs
  | seqLike xs =>
      rw [format_output_value, fovTry]
      rw [show (match (Except.ok (PyValue.pyList (fovList xs)) : Except PyErr PyValue) with
            | .ok w => w
            | .error _ => PyValue.strV (pyStr (PyValue.seqLike xs))) =
          PyValue.pyList (fovList xs) from rfl]
      rw [isOutputShape]
      exact outputShape_fovList xs
  | protoMsg pb attrs callables raisingAttrs =>
      cases pb with
      | none =>
          rw [format_output_value, fovTry]
          exact outputShape_mapping_fromList _ (outputShape_fovScan attrs callables)
      | some fields =>
          rw [format_output_value, fovTry]
          exact outputShape_mapping_fromList _ (outputShape_fovPairs fields)
  | pbMsg fields =>
      rw [format_output_value, fovTry]
      exact outputShape_mapping_fromList _ (outputShape_toPyFields fields)

theorem outputShape_fovList (xs : List PyValue) :
    isOutputShapeList (fovList xs) = true := by
  cases xs with
  | nil => simp [fovList, isOutputShapeList]
  | cons x rest =>
      rw [fovList, isOutputShapeList, Bool.and_eq_true]
      exact ⟨outputShape_format x, outputShape_fovList rest⟩

theorem outputShape_fovMapItems (items : List (PyValue × PyValue)) :
    ∀ p ∈ fovMapItems items, isOutputShape p.2 = true := by
  cases items with
  | nil =>
      intro p hp
      rw [fovMapItems] at hp
      cases hp
  | cons q rest =>
      obtain ⟨k, v⟩ := q
      intro p hp
      rw [fovMapItems] at hp
      rcases List.mem_cons.mp hp with h1 | h1
      · rw [h1]
        exact outputShape_format v
      · exact outputShape_fovMapItems rest p h1

theorem outputShape_fovPairs (l : List (String × PyValue)) :
    ∀ p ∈ fovPairs l, isOutputShape p.2 = true := by
  cases l with
  | nil =>
      intro p hp
      rw [fovPairs] at hp
      cases hp
  | cons q rest =>
      obtain ⟨n, v⟩ := q
      intro p hp
      rw [fovPairs] at hp
      rcases List.mem_cons.mp hp with h1 | h1
      · rw [h1]
        exact outputShape_format v
      · exact outputShape_fovPairs rest p h1

theorem outputShape_fovScan (l : List (String × PyValue)) (callables : List String) :
    ∀ p ∈ fovScan l callables, isOutputShape p.2 = true := by
  cases l with
  | nil =>
      intro p hp
      rw [fovScan] at hp
      cases hp
  | cons q rest =>
      obtain ⟨n, v⟩ := q
      intro p hp
      rw [fovScan] at hp
      by_cases hskip : (strStartsWith n "_" || callables.contains n) = true
      · rw [if_pos hskip] at hp
        exact outputShape_fovScan rest callables p hp
      · rw [if_neg hskip] at hp
        rcases List.mem_cons.mp hp with h1 | h1
        · rw [h1]
          exact outputShape_format v
        · exact outputShape_fovScan rest callables p h1

end

mutual

theorem format_fixed (w : PyValue) (h : isOutputShape w = true) :
    format_output_value w = w := by
  cases w with
  | none => simp [format_output_value, fovTry]
  | boolV b => simp [format_output_value, fovTry]
  | intV n => simp [format_output_value, fovTry]
  | strV s => simp [format_output_value, fovTry]
  | bytesV bs => simp [format_output_value, fovTry]
  | enumV n k => simp [isOutputShape] at h
  | adTextAsset t => simp [isOutputShape] at h
  | mapping items =>
      rw [isOutputShape, Bool.and_eq_true] at h
      obtain ⟨hents, hnodup⟩ := h
      have hfix := fovMapItems_fixed items hents
      have hid : strDictFromList (fovMapItems items) = fovMapItems items := by
        apply strDictFromList_id
        rw [hfix.2]
        exact (strsNodup_iff _).mp hnodup
      rw [format_output_value, fovTry]
      show PyValue.mapping (toMappingPairs (strDictFromList (fovMapItems items))) =
        PyValue.mapping items
      rw [hid, hfix.1]
  | mappingRaising s => simp [isOutputShape] at h
  | upbRepeated xs => simp [isOutputShape] at h
  | pyList xs =>
      rw [isOutputShape] at h
      rw [format_output_value, fovTry]
      show PyValue.pyList (fovList xs) = PyValue.pyList xs
      rw [fovList_fixed xs h]
  | seqLike xs => simp [isOutputShape] at h
  | protoMsg pb attrs callables raisingAttrs => simp [isOutputShape] at h
  | pbMsg fields => simp [isOutputShape] at h

theorem fovList_fixed (xs : List PyValue) (h : isOutputShapeList xs = true) :
    fovList xs = xs := by
  cases xs with
  | nil => rw [fovList]
  | cons x rest =>
      rw [isOutputShapeList, Bool.and_eq_true] at h
      rw [fovList, format_fixed x h.1, fovList_fixed rest h.2]

theorem fovMapItems_fixed (m : List (PyValue × PyValue)) (h : isOutputShapeEntries m = true) :
    toMappingPairs (fovMapItems m) = m ∧
      (fovMapItems m).map Prod.fst = m.filterMap entryKey := by
  cases m with
  | nil =>
      constructor
      · rw [fovMapItems]
        rfl
      · rw [fovMapItems]
        rfl
  | cons q rest =>
      obtain ⟨k, v⟩ := q
      cases k with
      | strV s =>
          rw [isOutputShapeEntries] at h
          simp only [Bool.and_eq_true] at h
          obtain ⟨⟨_, hv⟩, hrest⟩ := h
          have ih := fovMapItems_fixed rest hrest
          constructor
          · rw [fovMapItems]
            show (PyValue.strV (pyStr (PyValue.strV s)), format_output_value v) ::
              toMappingPairs (fovMapItems rest) = _
            rw [ih.1, format_fixed v hv]
            rfl
          · rw [fovMapItems]
            show pyStr (PyValue.strV s) :: (fovMapItems rest).map Prod.fst = _
            rw [ih.2]
            rfl
      | none => simp [isOutputShapeEntries] at h
      | boolV b => simp [isOutputShapeEntries] at h
      | intV n => simp [isOutputShapeEntries] at h
      | bytesV bs => simp [isOutputShapeEntries] at h
      | enumV n k2 => simp [isOutputShapeEntries] at h
      | adTextAsset t => simp [isOutputShapeEntries] at h
      | mapping items2 => simp [isOutputShapeEntries] at h
      | mappingRaising s => simp [isOutputShapeEntries] at h
      | upbRepeated xs => simp [isOutputShapeEntries] at h
      | pyList xs => simp [isOutputShapeEntries] at h
      | seqLike xs => simp [isOutputShapeEntries] at h
      | protoMsg pb attrs cs rs => simp [isOutputShapeEntries] at h
      | pbMsg fields => simp [isOutputShapeEntries] at h

end

mutual

theorem noBytes_format (v : PyValue) (h : noBytes v = true) :
    noBytes (format_output_value v) = true := by
  cases v with
  | none => simp [format_output_value, fovTry, noBytes]
  | boolV b => simp [format_output_value, fovTry, noBytes]
  | intV n => simp [format_output_value, fovTry, noBytes]
  | strV s => simp [format_output_value, fovTry, noBytes]
  | bytesV bs => simp [noBytes] at h
  | enumV n k => simp [format_output_value, fovTry, noBytes]
  | adTextAsset t => simp [format_output_value, fovTry, noBytes]
  | mappingRaising s => simp [format_output_value, fovTry, noBytes, pyStr]
  | mapping items =>
      rw [noBytes] at h
      rw [format_output_value, fovTry]
      show noBytes (.mapping (toMappingPairs (strDictFromList (fovMapItems items)))) = true
      exact noBytes_mapping_fromList _ (noBytes_fovMapItems items h)
  | upbRepeated xs =>
      rw [noBytes] at h
      rw [format_output_value, fovTry]
      show noBytes (.pyList (fovList xs)) = true
      rw [noBytes]
      exact noBytes_fovList xs h
  | pyList xs =>
      rw [noBytes] at h
      rw [format_output_value, fovTry]
      show noBytes (.pyList (fovList xs)) = true
      rw [noBytes]
      exact noBytes_fovList xs h
  | seqLike xs =>
      rw [noBytes] at h
      rw [format_output_value, fovTry]
      show noBytes (.pyList (fovList xs)) = true
      rw [noBytes]
      exact noBytes_fovList xs h
  | protoMsg pb attrs callables raisingAttrs =>
      cases pb with
      | none =>
          rw [noBytes] at h
          rw [format_output_value, fovTry]
          show noBytes (.mapping (toMappingPairs (strDictFromList (fovScan attrs callables)))) = true
          exact noBytes_mapping_fromList _ (noBytes_fovScan attrs callables h)
      | some fields =>
          rw [noBytes, Bool.and_eq_true] at h
          rw [format_output_value, fovTry]
          show noBytes (.mapping (toMappingPairs (strDictFromList (fovPairs fields)))) = true
          exact noBytes_mapping_fromList _ (noBytes_fovPairs fields h.1)
  | pbMsg fields =>
      rw [format_output_value, fovTry]
      show noBytes (.mapping (toMappingPairs (strDictFromList (Json.toPyFields fields)))) = true
      exact noBytes_mapping_fromList _ (noBytes_toPyFields fields)

theorem noBytes_fovList (xs : List PyValue) (h : noBytesList xs = true) :
    noBytesList (fovList xs) = true := by
  cases xs with
  | nil => rw [fovList, noBytesList]
  | cons x rest =>
      rw [noBytesList, Bool.and_eq_true] at h
      rw [fovList, noBytesList, Bool.and_eq_true]
      exact ⟨noBytes_format x h.1, noBytes_fovList rest h.2⟩

theorem noBytes_fovMapItems (m : List (PyValue × PyValue)) (h : noBytesEntries m = true) :
    ∀ p ∈ fovMapItems m, noBytes p.2 = true := by
  cases m with
  | nil =>
      intro p hp
      rw [fovMapItems] at hp
      cases hp
  | cons q rest =>
      obtain ⟨k, v⟩ := q
      rw [noBytesEntries, Bool.and_eq_true, Bool.and_eq_true] at h
      intro p hp
      rw [fovMapItems] at hp
      rcases List.mem_cons.mp hp with h1 | h1
      · rw [h1]
        exact noBytes_format v h.1.2
      · exact noBytes_fovMapItems rest h.2 p h1

theorem noBytes_fovPairs (l : List (String × PyValue)) (h : noBytesPairs l = true) :
    ∀ p ∈ fovPairs l, noBytes p.2 = true := by
  cases l with
  | nil =>
      intro p hp
      rw [fovPairs] at hp
      cases hp
  | cons q rest =>
      obtain ⟨n, v⟩ := q
      rw [noBytesPairs, Bool.and_eq_true] at h
      intro p hp
      rw [fovPairs] at hp
      rcases List.mem_cons.mp hp with h1 | h1
      · rw [h1]
        exact noBytes_format v h.1
      · exact noBytes_fovPairs rest h.2 p h1

theorem noBytes_fovScan (l : List (String × PyValue)) (callables : List String)
    (h : noBytesPairs l = true) : ∀ p ∈ fovScan l callables, noBytes p.2 = true := by
  cases l with
  | nil =>
      intro p hp
      rw [fovScan] at hp
      cases hp
  | cons q rest =>
      obtain ⟨n, v⟩ := q
      rw [noBytesPairs, Bool.and_eq_true] at h
      intro p hp
      rw [fovScan] at hp
      by_cases hskip : (strStartsWith n "_" || callables.contains n) = true
      · rw [if_pos hskip] at hp
        exact noBytes_fovScan rest callables h.2 p hp
      · rw [if_neg hskip] at hp
        rcases List.mem_cons.mp hp with h1 | h1
        · rw [h1]
          exact noBytes_format v h.1
        · exact noBytes_fovScan rest callables h.2 p h1

end

/-- C2 counterexample: a byte string reaches the final
return-value-unchanged branch and is returned as-is, so the result is
not built from the JSON-serializable shapes and the claim's "the final
branch is only ever reached by primitive scalars" fails: `bytes` is
excluded from repeated-container detection and handled by no earlier
branch. -/
theorem format_output_value_normalized_counterexample :
    format_output_value (.bytesV [104, 105]) = .bytesV [104, 105] ∧
    isNormalized (.bytesV [104, 105]) = false := by
  constructor
  · simp [format_output_value, fovTry]
  · simp [isNormalized, noBytes]

/-- C2 (amended): for every input value free of byte strings, the result
of `format_output_value` is a Normalized Value — built only from null,
booleans, integers, strings, ordered sequences of such values and
mappings with distinct string keys — hence serializable to JSON with no
loss; byte-string inputs are the one exception, passed through unchanged
by the final branch. -/
theorem format_output_value_normalized (v : PyValue) (h : noBytes v = true) :
    isNormalized (format_output_value v) = true := by
  rw [isNormalized, Bool.and_eq_true]
  exact ⟨outputShape_format v, noBytes_format v h⟩

/-- C2 witness: a byte-free record value normalizes to a Normalized
Value. -/
theorem format_output_value_normalized_witness :
    noBytes (.mapping [(.strV "status", .enumV "ENABLED" 2)]) = true ∧
    isNormalized (format_output_value
      (.mapping [(.strV "status", .enumV "ENABLED" 2)])) = true := by
  have hnb : noBytes (.mapping [(.strV "status", .enumV "ENABLED" 2)]) = true := by
    simp [noBytes, noBytesEntries]
  exact ⟨hnb, format_output_value_normalized _ hnb⟩

/-- C3: `format_output_value` never raises: it is total, returning the
`try` block's value when that block succeeds, and the printable string
form `str(value)` of the original value whenever the `try` block raises
any internal exception. -/
theorem format_never_raises (v : PyValue) :
    (∀ w, fovTry v = .ok w → format_output_value v = w) ∧
    (∀ e, fovTry v = .error e → format_output_value v = .strV (pyStr v)) := by
  constructor
  · intro w hw
    rw [format_output_value, hw]
  · intro e he
    rw [format_output_value, he]

/-- C3 witness: a mapping whose `items()` raises is downgraded to its
printable string form. -/
theorem format_never_raises_witness :
    format_output_value (.mappingRaising "broken mapping") = .strV "broken mapping" :=
  (format_never_raises (.mappingRaising "broken mapping")).2
    (.runtimeError "items() raised") (by rw [fovTry])

/-- C8: `format_output_value` is idempotent on its own output: its
results are fixed points of the conversion. -/
theorem format_output_value_idempotent (v : PyValue) :
    format_output_value (format_output_value v) = format_output_value v :=
  format_fixed (format_output_value v) (outputShape_format v)

end AdsMcp
